import Mathlib

/-!
Shallow embedding of the `hcc_ai_pipeline` repository (Python), covering:

* `src/services/hcc_lookup.py`  — `HCCLookupService.lookup`, the 4-tier
  reference-table matcher;
* `src/app/nodes.py`            — `HCCEvaluationNode.__call__`, enrichment of
  extracted conditions;
* `src/ingestion/text_cleaner.py` — `extract_assessment_section`;
* `src/server/api.py`           — `JobState` and the `_run_job` aggregation
  loop, plus the output writer `_process_one`;
* `src/cli.py`                  — the CLI output writer `_process_one`.

Modelling conventions:

* Python strings are Lean `String`s; `.lower()` is modelled as ASCII case
  folding (`Char.toLower`), `.strip()`/`.split()` use Python's ASCII
  whitespace set `' ' '\t' '\n' '\r' '\x0b' '\x0c'`.
* A pandas DataFrame row of the reference CSV is a `RefRow` whose cells are
  `Option String` (`none` models a NaN / missing cell).  The CSV is assumed
  to carry the three columns `Description`, `ICD-10-CM Codes`, `Tags` used by
  the service (the defensive `code_col not in row.index` branch of the source
  never fires on such a table).
* `pandas.Series.str.contains(key, case=False, na=False)` uses `key` as a
  regular-expression pattern (`regex=True` is the pandas default).  We model
  `re.search` for patterns built from literal characters and the `.` wildcard
  (`rePatOk`); theorems whose truth routes through that tier carry a
  `rePatOk` hypothesis so that they only speak where the model is faithful.
  Both sides of the match are already lower-cased, so `case=False` is inert.
* `sort_values('_match_score', ascending=False)` is modelled as a stable
  descending insertion sort.  pandas' default sort kind is quicksort, whose
  order among equal keys is not guaranteed; the model's stable choice matches
  numpy's observed behaviour on small inputs but is a modelling commitment,
  not a fact of the source.
* Effectful writers are modelled as traces of filesystem events.
-/

/-! ### Python string primitives -/

/-- Python's ASCII whitespace set, as used by `str.strip()` and `str.split()`
with no arguments. -/
def isPySpace (c : Char) : Bool :=
  c = ' ' || c = '\t' || c = '\n' || c = '\r' || c = '\x0b' || c = '\x0c'

/-- Python `str.lower()` (ASCII case folding). -/
def pyLower (s : String) : String := ⟨s.data.map Char.toLower⟩

/-- Python `str.strip()` with no arguments: drop leading and trailing
whitespace. -/
def pyStrip (s : String) : String :=
  ⟨((s.data.dropWhile isPySpace).reverse.dropWhile isPySpace).reverse⟩

/-- The normalization applied both to the query (`condition.lower().strip()`,
`hcc_lookup.py` line 18) and to each `Description` cell at load time
(`hcc_lookup.py` line 14). -/
def pyNormalize (s : String) : String := pyStrip (pyLower s)

/-- Python `str.split()` with no arguments: split on whitespace runs,
producing no empty words. -/
def pySplit (s : String) : List String :=
  ((s.data.splitOnP isPySpace).filter (· ≠ [])).map (⟨·⟩)

/-- Python's substring operator `needle in hay`. -/
def strContains (needle : List Char) : List Char → Bool
  | [] => needle.isEmpty
  | c :: rest => needle.isPrefixOf (c :: rest) || strContains needle rest

/-- `True` when the string is empty or neither starts nor ends with
whitespace, i.e. it is its own `strip()`. -/
def noEdgeSpace (s : String) : Bool :=
  (match s.data.head? with | some c => !isPySpace c | none => true) &&
  (match s.data.getLast? with | some c => !isPySpace c | none => true)

/-! ### A fragment of Python regular expressions

`pandas.Series.str.contains` defaults to `regex=True` and delegates to
`re.search`.  We model `re.search` for patterns made of literal characters
and the `.` wildcard (which matches any character except a newline). -/

/-- Characters that are special to Python `re` patterns. -/
def reMeta : List Char :=
  ['.', '^', '$', '*', '+', '?', '\x7b', '\x7d', '[', ']', '\\', '|', '(', ')']

/-- The pattern uses no metacharacter other than the `.` wildcard: on these
patterns the model below agrees with Python `re`. -/
def rePatOk (s : String) : Bool := s.data.all (fun c => c = '.' || !reMeta.contains c)

/-- The pattern is fully literal (no metacharacter at all): on these patterns
a regex search is plain substring containment. -/
def reLitOk (s : String) : Bool := s.data.all (fun c => !reMeta.contains c)

/-- Match the pattern against a prefix of the text (anchored at the current
position). -/
def reMatchAt : List Char → List Char → Bool
  | [], _ => true
  | _ :: _, [] => false
  | p :: ps, c :: cs => (if p = '.' then c ≠ '\n' else p = c) && reMatchAt ps cs

/-- `re.search`: the pattern matches at some position of the text. -/
def reSearch (pat : List Char) : List Char → Bool
  | [] => reMatchAt pat []
  | c :: rest => reMatchAt pat (c :: rest) || reSearch pat rest

/-! ### The reference table (`hcc_lookup.py`) -/

/-- One row of the reference CSV as seen by `HCCLookupService`: the cells of
the `Description`, `ICD-10-CM Codes` and `Tags` columns, `none` for NaN. -/
structure RefRow where
  description : Option String
  code : Option String
  tags : Option String
deriving DecidableEq, Repr

/-- The `condition_normalized` column computed at load time
(`hcc_lookup.py` line 14); NaN descriptions stay NaN. -/
def rowNorm (r : RefRow) : Option String := r.description.map pyNormalize

/-- Tier 1 (`hcc_lookup.py` line 21): rows whose normalized description
equals the key; `.iloc[0]` keeps the first in original order.  A NaN
normalized cell never compares equal. -/
def exactTier (key : String) (rows : List RefRow) : Option RefRow :=
  rows.find? (fun r => rowNorm r == some key)

/-- Tier 2 membership (`hcc_lookup.py` line 26):
`condition_normalized.str.contains(key, case=False, na=False)` — the key is a
regex pattern searched inside the normalized description, NaN gives `False`. -/
def substrMatch (key : String) (r : RefRow) : Bool :=
  match rowNorm r with
  | some d => reSearch key.data d.data
  | none => false

/-- Tier 2: first row (original order) whose normalized description the key
pattern matches inside. -/
def substrTier (key : String) (rows : List RefRow) : Option RefRow :=
  rows.find? (substrMatch key)

/-- Tier 3 membership (`hcc_lookup.py` lines 30–32): the normalized
description occurs (Python `in`, literal) inside the key; NaN gives `False`. -/
def revSubstrMatch (key : String) (r : RefRow) : Bool :=
  match rowNorm r with
  | some d => strContains d.data key.data
  | none => false

/-- Tier 3: first row whose normalized description is contained in the key. -/
def revSubstrTier (key : String) (rows : List RefRow) : Option RefRow :=
  rows.find? (revSubstrMatch key)

/-- `key_words = set(key.split())` (`hcc_lookup.py` line 36): the distinct
whitespace-delimited words of the key. -/
def keyWords (key : String) : List String := (pySplit key).dedup

/-- `score_match` (`hcc_lookup.py` lines 39–43): the number of distinct key
words appearing among the description's words; 0 for NaN. -/
def rowScore (kw : List String) (r : RefRow) : Nat :=
  match rowNorm r with
  | some d => (kw.filter (fun w => (pySplit (pyLower d)).contains w)).length
  | none => 0

/-- Insert into a list sorted by descending score, after entries of greater or
equal score (stable). -/
def insertByScore (x : Nat × RefRow) : List (Nat × RefRow) → List (Nat × RefRow)
  | [] => [x]
  | y :: ys => if x.1 < y.1 then y :: insertByScore x ys else x :: y :: ys

/-- Model of `sort_values('_match_score', ascending=False)` as a stable
descending insertion sort.  pandas' default quicksort does not promise any
particular order among equal scores; see the header note. -/
def sortByScoreDesc (l : List (Nat × RefRow)) : List (Nat × RefRow) :=
  l.foldr insertByScore []

/-- Tier 4 (`hcc_lookup.py` lines 35–51): score every row, keep scores
`≥ min(2, #key words)`, sort by score descending, take the head.  Skipped
entirely when the key has no words. -/
def tokenTier (key : String) (rows : List RefRow) : Option RefRow :=
  let kw := keyWords key
  if kw.isEmpty then none
  else
    let kept := (rows.map (fun r => (rowScore kw r, r))).filter
      (fun p => min 2 kw.length ≤ p.1)
    (sortByScoreDesc kept).head?.map Prod.snd

/-- The tier cascade of `HCCLookupService.lookup`: each tier is consulted only
when every earlier tier produced an empty candidate set. -/
def selectRow (key : String) (rows : List RefRow) : Option RefRow :=
  match exactTier key rows with
  | some r => some r
  | none =>
    match substrTier key rows with
    | some r => some r
    | none =>
      match revSubstrTier key rows with
      | some r => some r
      | none => tokenTier key rows

/-- The dictionary returned by `lookup` (`hcc_lookup.py` lines 89–93). -/
structure LookupResult where
  condition : String
  code : Option String
  hcc_relevant : Bool
deriving DecidableEq, Repr

/-- Code cell cleanup (`hcc_lookup.py` lines 71–77): NaN, empty-after-strip
and the literal string `"nan"` all become `None`. -/
def cleanCode : Option String → Option String
  | none => none
  | some s => if pyStrip s = "" || pyStrip s = "nan" then none else some (pyStrip s)

/-- Conversion of the selected row to the result bundle
(`hcc_lookup.py` lines 70–93): description trimmed (falling back to the
original query on NaN), code cleaned, `hcc_relevant` true iff the tags cell
is present and non-empty after stripping. -/
def buildResult (query : String) (r : RefRow) : LookupResult :=
  { condition := match r.description with | some d => pyStrip d | none => query
    code := cleanCode r.code
    hcc_relevant := match r.tags with | some t => pyStrip t != "" | none => false }

/-- `HCCLookupService.lookup` (`hcc_lookup.py` lines 17–93): normalize the
query, run the cascade, convert the selected row. -/
def lookup (rows : List RefRow) (condition : String) : Option LookupResult :=
  (selectRow (pyNormalize condition) rows).map (buildResult condition)

/-! ### Conditions and enrichment (`app/state.py`, `app/nodes.py`) -/

/-- `Condition` (`app/state.py`): name, optional ICD-10-CM code, HCC
relevance flag. -/
structure Condition where
  name : String
  code : Option String := none
  hcc_relevant : Bool := false
deriving DecidableEq, Repr

/-- `HCCEvaluationNode.__call__` (`app/nodes.py` lines 42–55): for each
extracted condition in order, look its name up; on a match append a new
`Condition` built from the match, otherwise append the original condition.
The lookup engine is passed as a function so the node can be studied against
any service. -/
def enrichConditions (lk : String → Option LookupResult) : List Condition → List Condition
  | [] => []
  | c :: rest =>
    (match lk c.name with
      | some m => { name := m.condition, code := m.code, hcc_relevant := m.hcc_relevant }
      | none => c) :: enrichConditions lk rest

/-! ### Assessment-section extraction (`ingestion/text_cleaner.py`)

The two compiled regular expressions are abstracted as search functions:
`findStart text` returns `start.end()` for the first start-header match (or
`none`), and `findEnd text s` returns `end.start()` for the first end-header
match at positions `≥ s` (or `none`).  Positions are character offsets, as in
Python. -/

/-- `end.start() if end else len(text)` (`text_cleaner.py` lines 58–59). -/
def sectionEnd (findEnd : String → Nat → Option Nat) (text : String) (s : Nat) : Nat :=
  match findEnd text s with
  | some e => e
  | none => text.length

/-- `text[start_idx:end_idx].strip()` (`text_cleaner.py` line 62). -/
def sectionSlice (findEnd : String → Nat → Option Nat) (text : String) (s : Nat) : String :=
  pyStrip ⟨(text.data.drop s).take (sectionEnd findEnd text s - s)⟩

/-- `extract_assessment_section` (`text_cleaner.py` lines 34–65): empty input
is returned as is; with no start-header match the whole text is returned;
otherwise the slice up to the next end header (or end of text) is stripped
and returned, falling back to the whole text when the stripped slice is
empty. -/
def extractAssessmentSection (findStart : String → Option Nat)
    (findEnd : String → Nat → Option Nat) (text : String) : String :=
  if text = "" then text
  else
    match findStart text with
    | none => text
    | some s =>
      if sectionSlice findEnd text s = "" then text else sectionSlice findEnd text s

/-! ### The job runner (`server/api.py`) -/

/-- The fields of `JobState` that the aggregation loop mutates (`server/api.py`
lines 47–58).  The id and the three timestamps are opaque to the loop's logic
and are left out of the model. -/
structure JobRecord where
  status : String
  files : List String
  total : Nat
  completed : Nat
  errors : List String
  outputs : List String
deriving DecidableEq, Repr

/-- `JobState.__init__` (`server/api.py` lines 48–58). -/
def mkJob (files : List String) : JobRecord :=
  { status := "pending", files := files, total := files.length,
    completed := 0, errors := [], outputs := [] }

/-- The body of the `as_completed` loop (`server/api.py` lines 149–154): a
future that returns a path appends it to `outputs` and bumps `completed`; a
future that raised has its exception caught and its message appended to
`errors`. -/
def recordOutcome (j : JobRecord) (r : Except String String) : JobRecord :=
  match r with
  | .ok path => { j with outputs := j.outputs ++ [path], completed := j.completed + 1 }
  | .error msg => { j with errors := j.errors ++ [msg] }

/-- `_run_job` (`server/api.py` lines 120–157), for a run whose setup
succeeds: mark running, fold the per-file outcomes (in completion order) into
the record, then set the final status from the errors list.  `results` is the
list of per-file outcomes in the order `as_completed` yields them — the model
is quantified over that order, which the scheduler does not fix. -/
def runJob (j : JobRecord) (results : List (Except String String)) : JobRecord :=
  let finished := results.foldl recordOutcome { j with status := "running" }
  { finished with status := if finished.errors.isEmpty then "completed" else "failed" }

/-- The output paths among a list of outcomes, in order. -/
def okPaths (results : List (Except String String)) : List String :=
  results.filterMap (fun r => match r with | .ok p => some p | .error _ => none)

/-- The error messages among a list of outcomes, in order. -/
def errMsgs (results : List (Except String String)) : List String :=
  results.filterMap (fun r => match r with | .ok _ => none | .error m => some m)

/-! ### Output writers as filesystem-event traces (`cli.py`, `server/api.py`) -/

/-- Filesystem events an output writer performs: creating/filling a file at a
path (content is irrelevant here), and an atomic rename. -/
inductive FsEvent where
  | write (path : String)
  | rename (src dst : String)
deriving DecidableEq, Repr

/-- The final artifact path `<output_dir>/<filename>.json` used by both
writers. -/
def outputPathOf (dir fn : String) : String := dir ++ "/" ++ fn ++ ".json"

/-- The CLI writer `_process_one` (`cli.py` lines 28–33): write
`<final>.tmp`, then `os.replace(tmp, final)`. -/
def cliWriteTrace (dir fn : String) : List FsEvent :=
  [.write (outputPathOf dir fn ++ ".tmp"),
   .rename (outputPathOf dir fn ++ ".tmp") (outputPathOf dir fn)]

/-- The service writer `_process_one` (`server/api.py` lines 110–114): open
the final path and write the JSON into it directly. -/
def apiWriteTrace (dir fn : String) : List FsEvent :=
  [.write (outputPathOf dir fn)]

/-- The trace publishes path `p` atomically: `p` is never the target of a
plain write (so a reader never sees a partial file there) and it is the
destination of some rename. -/
def atomicAt (tr : List FsEvent) (p : String) : Bool :=
  tr.all (fun e => match e with | .write q => q != p | .rename _ _ => true) &&
  tr.any (fun e => match e with | .rename _ d => d == p | .write _ => false)

/-! ### Helper lemmas -/

/-- `find?` returns the element at the first index whose predicate holds. -/
theorem find?_first_index {α : Type} (p : α → Bool) (l : List α) (i : Nat)
    (hi : i < l.length) (hp : p (l.get ⟨i, hi⟩) = true)
    (hfirst : ∀ j (hj : j < i), p (l.get ⟨j, Nat.lt_trans hj hi⟩) = false) :
    l.find? p = some (l.get ⟨i, hi⟩) := by
  induction l generalizing i with
  | nil => exact absurd hi (Nat.not_lt_zero i)
  | cons a t ih =>
    cases i with
    | zero => exact List.find?_cons_of_pos t hp
    | succ n =>
      have ha : p a = false := hfirst 0 (Nat.succ_pos n)
      rw [List.find?_cons_of_neg t (by simp [ha])]
      exact ih n (Nat.lt_of_succ_lt_succ hi) hp
        (fun j hj => hfirst (j + 1) (Nat.succ_lt_succ hj))

/-- The head of a `dropWhile` fails the predicate. -/
theorem dropWhile_head_false {α : Type} (p : α → Bool) (l : List α) :
    ∀ c rest, l.dropWhile p = c :: rest → p c = false := by
  induction l with
  | nil => intro c rest h; simp [List.dropWhile] at h
  | cons a t ih =>
    intro c rest h
    rw [List.dropWhile_cons] at h
    by_cases hpa : p a = true
    · exact ih c rest (by simpa [hpa] using h)
    · rw [if_neg hpa] at h
      cases h
      exact Bool.eq_false_iff.mpr hpa

/-- A non-empty `dropWhile` keeps the last element of the list. -/
theorem dropWhile_getLast? {α : Type} (p : α → Bool) (l : List α)
    (h : l.dropWhile p ≠ []) : (l.dropWhile p).getLast? = l.getLast? := by
  induction l with
  | nil => simp [List.dropWhile] at h
  | cons a t ih =>
    rw [List.dropWhile_cons]
    by_cases hpa : p a = true
    · rw [List.dropWhile_cons, if_pos hpa] at h
      rw [if_pos hpa, ih h]
      match t, h with
      | b :: t2, _ => exact (List.getLast?_cons_cons).symm
    · rw [if_neg hpa]

/-- Stripping leaves no leading or trailing whitespace. -/
theorem noEdgeSpace_pyStrip (s : String) : noEdgeSpace (pyStrip s) = true := by
  have key : ∀ l : List Char,
      noEdgeSpace ⟨((l.dropWhile isPySpace).reverse.dropWhile isPySpace).reverse⟩ = true := by
    intro l
    rcases hBe : (l.dropWhile isPySpace).reverse.dropWhile isPySpace with _ | ⟨c, rest⟩
    · simp [noEdgeSpace, hBe]
    · have hc : isPySpace c = false :=
        dropWhile_head_false isPySpace (l.dropWhile isPySpace).reverse c rest hBe
      have hBne : (l.dropWhile isPySpace).reverse.dropWhile isPySpace ≠ [] := by
        rw [hBe]; exact List.cons_ne_nil c rest
      have h1 : ((l.dropWhile isPySpace).reverse.dropWhile isPySpace).getLast? =
          (l.dropWhile isPySpace).reverse.getLast? :=
        dropWhile_getLast? isPySpace (l.dropWhile isPySpace).reverse hBne
      rcases hAe : l.dropWhile isPySpace with _ | ⟨a, t⟩
      · rw [hAe] at hBe; simp [List.dropWhile] at hBe
      · have ha : isPySpace a = false := dropWhile_head_false isPySpace l a t hAe
        have hlast : (c :: rest).getLast? = some a := by
          rw [← hBe, h1, List.getLast?_reverse, hAe]; rfl
        change ((match ((c :: rest).reverse).head? with
            | some x => !isPySpace x | none => true) &&
          (match ((c :: rest).reverse).getLast? with
            | some x => !isPySpace x | none => true)) = true
        rw [List.head?_reverse, List.getLast?_reverse, hlast]
        simp [ha, hc]
  exact key s.data

/-- On a pattern with no regex metacharacter, anchored matching is plain
prefix testing. -/
theorem reMatchAt_lit (pat : List Char) (h : ∀ c ∈ pat, reMeta.contains c = false) :
    ∀ s, reMatchAt pat s = pat.isPrefixOf s := by
  induction pat with
  | nil => intro s; cases s <;> simp [reMatchAt, List.isPrefixOf]
  | cons p ps ih =>
    intro s
    have hp : reMeta.contains p = false := h p (List.mem_cons_self p ps)
    have hdot : p ≠ '.' := by
      intro hpd
      rw [hpd] at hp
      simp [reMeta] at hp
    cases s with
    | nil => simp [reMatchAt, List.isPrefixOf]
    | cons c cs =>
      simp only [reMatchAt, List.isPrefixOf, if_neg hdot]
      rw [ih (fun x hx => h x (List.mem_cons_of_mem p hx)) cs]
      cases hpc : (p == c) <;> simp [beq_iff_eq] at hpc <;> simp [hpc]

/-- On a pattern with no regex metacharacter, a regex search is plain
substring containment. -/
theorem reSearch_lit (pat : List Char) (h : ∀ c ∈ pat, reMeta.contains c = false) :
    ∀ s, reSearch pat s = strContains pat s := by
  intro s
  induction s with
  | nil =>
    cases pat with
    | nil => simp [reSearch, reMatchAt, strContains, List.isEmpty]
    | cons p ps => simp [reSearch, reMatchAt, strContains, List.isEmpty]
  | cons c cs ih => simp only [reSearch, strContains, reMatchAt_lit pat h, ih]

/-- With the empty key, tier-2 membership is exactly "the description is not
NaN": the empty pattern matches inside every string. -/
theorem substrMatch_empty (r : RefRow) : substrMatch "" r = r.description.isSome := by
  have hsearch : ∀ l : List Char, reSearch [] l = true := by
    intro l; cases l <;> simp [reSearch, reMatchAt]
  unfold substrMatch rowNorm
  cases r.description <;> simp [hsearch]

/-- Folding the outcome loop appends the successes and failures to the
record's lists, adds the success count to `completed`, and leaves the status
alone. -/
theorem foldl_recordOutcome (results : List (Except String String)) (j : JobRecord) :
    (results.foldl recordOutcome j).status = j.status ∧
    (results.foldl recordOutcome j).completed = j.completed + (okPaths results).length ∧
    (results.foldl recordOutcome j).errors = j.errors ++ errMsgs results ∧
    (results.foldl recordOutcome j).outputs = j.outputs ++ okPaths results := by
  induction results generalizing j with
  | nil => simp [okPaths, errMsgs]
  | cons r rest ih =>
    obtain ⟨ih1, ih2, ih3, ih4⟩ := ih (recordOutcome j r)
    rw [List.foldl_cons]
    refine ⟨?_, ?_, ?_, ?_⟩
    · rw [ih1]; cases r <;> rfl
    · rw [ih2]; cases r <;>
        simp [recordOutcome, okPaths, List.filterMap_cons] <;> omega
    · rw [ih3]; cases r <;>
        simp [recordOutcome, errMsgs, List.filterMap_cons]
    · rw [ih4]; cases r <;>
        simp [recordOutcome, okPaths, List.filterMap_cons]

/-- Every outcome is either a success or a failure. -/
theorem okPaths_errMsgs_length (results : List (Except String String)) :
    (okPaths results).length + (errMsgs results).length = results.length := by
  induction results with
  | nil => simp [okPaths, errMsgs]
  | cons r rest ih =>
    cases r <;> simp [okPaths, errMsgs, List.filterMap_cons] at ih ⊢ <;> omega

/-! ### Claim theorems: lookup tiers -/

/-- C3: a query whose normalization equals some row's normalized description
is resolved by the exact tier: the first such row (original order) is
selected, the later tiers are not consulted, and the result is built from
that row. -/
theorem exact_tier_precedence (q : String) (rows : List RefRow) (i : Nat)
    (hi : i < rows.length)
    (hmatch : rowNorm (rows.get ⟨i, hi⟩) = some (pyNormalize q))
    (hfirst : ∀ j (hj : j < i),
      rowNorm (rows.get ⟨j, Nat.lt_trans hj hi⟩) ≠ some (pyNormalize q)) :
    exactTier (pyNormalize q) rows = some (rows.get ⟨i, hi⟩) ∧
    selectRow (pyNormalize q) rows = exactTier (pyNormalize q) rows ∧
    lookup rows q = some (buildResult q (rows.get ⟨i, hi⟩)) := by
  have hfind : exactTier (pyNormalize q) rows = some (rows.get ⟨i, hi⟩) := by
    apply find?_first_index
    · simp only [beq_iff_eq]; exact hmatch
    · intro j hj
      simp only [beq_eq_false_iff_ne]; exact hfirst j hj
  exact ⟨hfind, by simp [selectRow, hfind], by simp [lookup, selectRow, hfind]⟩

/-- Witness for C3, the spec's own end-to-end example: one-row table, query
equal to the description up to case. -/
theorem exact_tier_precedence_witness :
    lookup [RefRow.mk (some "Diabetes Mellitus") (some "E11") (some "True")]
        "Diabetes Mellitus" =
      some (LookupResult.mk "Diabetes Mellitus" (some "E11") true) := by
  have h := exact_tier_precedence "Diabetes Mellitus"
    [RefRow.mk (some "Diabetes Mellitus") (some "E11") (some "True")] 0
    (by decide) rfl (fun j hj => absurd hj (Nat.not_lt_zero j))
  exact h.2.2.trans (by decide)

/-- C6 counterexample: the second tier treats the normalized query as a
regular-expression pattern, not as a literal substring.  Query `"a.c"` is not
a literal substring of the description `"abc"`, yet the substring tier (and
hence lookup, the exact tier being empty) selects that row, because `.` is a
regex wildcard. -/
theorem substr_tier_regex_counterexample :
    exactTier "a.c" [RefRow.mk (some "abc") none none] = none ∧
    substrTier "a.c" [RefRow.mk (some "abc") none none] =
      some (RefRow.mk (some "abc") none none) ∧
    strContains "a.c".data "abc".data = false ∧
    lookup [RefRow.mk (some "abc") none none] "a.c" =
      some (LookupResult.mk "abc" none false) := by
  refine ⟨rfl, rfl, by decide, rfl⟩

/-- C6 (amended): in the second tier — reached only when the exact tier is
empty — a row is a candidate exactly when the normalized query, read as a
regex pattern, matches somewhere inside the row's normalized description
(NaN descriptions never match); the first candidate in original order is
selected and converted.  For queries containing no regex metacharacter the
pattern match coincides with literal substring containment. -/
theorem substr_tier_first_match (q : String) (rows : List RefRow) (i : Nat)
    (hi : i < rows.length)
    (_hpat : rePatOk (pyNormalize q) = true)
    (hexact : exactTier (pyNormalize q) rows = none)
    (hm : substrMatch (pyNormalize q) (rows.get ⟨i, hi⟩) = true)
    (hfirst : ∀ j (hj : j < i),
      substrMatch (pyNormalize q) (rows.get ⟨j, Nat.lt_trans hj hi⟩) = false) :
    substrTier (pyNormalize q) rows = some (rows.get ⟨i, hi⟩) ∧
    lookup rows q = some (buildResult q (rows.get ⟨i, hi⟩)) ∧
    (reLitOk (pyNormalize q) = true → ∀ r : RefRow,
      (substrMatch (pyNormalize q) r = true ↔
        ∃ d, r.description = some d ∧
          strContains (pyNormalize q).data (pyNormalize d).data = true)) := by
  have hfind : substrTier (pyNormalize q) rows = some (rows.get ⟨i, hi⟩) :=
    find?_first_index _ rows i hi hm hfirst
  refine ⟨hfind, by simp [lookup, selectRow, hexact, hfind], ?_⟩
  intro hlit r
  have hnometa : ∀ c ∈ (pyNormalize q).data, reMeta.contains c = false := by
    intro c hc
    simpa using (List.all_eq_true.mp hlit) c hc
  unfold substrMatch rowNorm
  cases hd : r.description with
  | none => simp
  | some d => simp [reSearch_lit _ hnometa]

/-- Witness for the amended C6: `"a.c"` is found inside `"xabcy"` by the
substring tier. -/
theorem substr_tier_first_match_witness :
    substrTier "a.c" [RefRow.mk (some "xabcy") none none] =
      some (RefRow.mk (some "xabcy") none none) ∧
    lookup [RefRow.mk (some "xabcy") none none] "a.c" =
      some (LookupResult.mk "xabcy" none false) := by
  have h := substr_tier_first_match "a.c" [RefRow.mk (some "xabcy") none none] 0
    (by decide) (by decide) (by decide) (by decide)
    (fun j hj => absurd hj (Nat.not_lt_zero j))
  exact ⟨h.1, h.2.1.trans (by decide)⟩

/-- C10 counterexample: with an empty query the exact tier still runs first,
so a later row whose description is whitespace-only (normalizing to the empty
string) wins over an earlier row with a non-empty description — the returned
result is not built from the first row with a non-null description. -/
theorem empty_query_counterexample :
    lookup [RefRow.mk (some "abc") none none, RefRow.mk (some "   ") none none] "" =
      some (LookupResult.mk "" none false) ∧
    buildResult "" (RefRow.mk (some "abc") none none) ≠ LookupResult.mk "" none false := by
  refine ⟨rfl, by decide⟩

/-- C10 (amended): an empty or whitespace-only query against a table with at
least one non-null description never returns `none`; when no row normalizes
to the empty string, the substring tier returns the first row with a non-null
description (the empty pattern matches inside every string). -/
theorem empty_query_total (q : String) (rows : List RefRow)
    (hq : pyNormalize q = "")
    (hsome : ∃ r ∈ rows, r.description.isSome = true) :
    lookup rows q ≠ none ∧
    ((∀ r ∈ rows, rowNorm r ≠ some "") →
      ∀ i (hi : i < rows.length),
        (rows.get ⟨i, hi⟩).description.isSome = true →
        (∀ j (hj : j < i), (rows.get ⟨j, Nat.lt_trans hj hi⟩).description.isSome = false) →
        lookup rows q = some (buildResult q (rows.get ⟨i, hi⟩))) := by
  constructor
  · rw [lookup, hq]
    rcases hex : exactTier "" rows with _ | r
    · rcases hsome with ⟨r0, hr0, hr0some⟩
      have hsub : substrTier "" rows ≠ none := by
        intro hnone
        have := List.find?_eq_none.mp hnone r0 hr0
        rw [substrMatch_empty] at this
        exact this hr0some
      rcases hs : substrTier "" rows with _ | r1
      · exact absurd hs hsub
      · simp [selectRow, hex, hs]
    · simp [selectRow, hex]
  · intro hnoexact i hi hdesc hfirst
    have hex : exactTier "" rows = none := by
      apply List.find?_eq_none.mpr
      intro r hr
      simpa [beq_iff_eq] using hnoexact r hr
    have hfind : substrTier "" rows = some (rows.get ⟨i, hi⟩) := by
      apply find?_first_index
      · rw [substrMatch_empty]; exact hdesc
      · intro j hj
        rw [substrMatch_empty]; exact hfirst j hj
    rw [lookup, hq]
    simp [selectRow, hex, hfind]

/-- Witness for the amended C10: a whitespace-only query skips a NaN row and
returns the first row with a description. -/
theorem empty_query_total_witness :
    lookup [RefRow.mk none none none, RefRow.mk (some "abc") (some "X") none] "  " ≠ none ∧
    lookup [RefRow.mk none none none, RefRow.mk (some "abc") (some "X") none] "  " =
      some (LookupResult.mk "abc" (some "X") false) := by
  have h := empty_query_total "  "
    [RefRow.mk none none none, RefRow.mk (some "abc") (some "X") none] rfl
    ⟨RefRow.mk (some "abc") (some "X") none, by simp, rfl⟩
  refine ⟨h.1, ?_⟩
  have h2 := h.2 (by decide) 1 (by decide) rfl
    (fun j hj => by
      match j, hj with
      | 0, _ => rfl)
  exact h2.trans (by decide)

/-! ### Claim theorems: result invariants, enrichment -/

/-- C5: every result lookup returns has a `code` that is either `none` or a
non-empty trimmed string different from the literal `"nan"`, and its
`hcc_relevant` flag is true exactly when the selected row's tags cell is
present and non-empty after stripping. -/
theorem lookup_result_invariants (q : String) (rows : List RefRow) (res : LookupResult)
    (h : lookup rows q = some res) :
    (res.code = none ∨
      ∃ c, res.code = some c ∧ c ≠ "" ∧ c ≠ "nan" ∧ noEdgeSpace c = true) ∧
    ∃ r, selectRow (pyNormalize q) rows = some r ∧ res = buildResult q r ∧
      (res.hcc_relevant = true ↔ ∃ t, r.tags = some t ∧ pyStrip t ≠ "") := by
  rcases hsel : selectRow (pyNormalize q) rows with _ | r
  · rw [lookup, hsel] at h; simp at h
  · rw [lookup, hsel] at h
    simp only [Option.map_some', Option.some.injEq] at h
    have hres : res = buildResult q r := h.symm
    constructor
    · rw [hres]
      have hbc : (buildResult q r).code = cleanCode r.code := rfl
      rw [hbc]
      rcases hc2 : r.code with _ | s
      · left; rfl
      · simp only [cleanCode]
        split
        · left; rfl
        · next hcond =>
          simp only [Bool.or_eq_true, decide_eq_true_eq, not_or] at hcond
          right
          exact ⟨pyStrip s, rfl, hcond.1, hcond.2, noEdgeSpace_pyStrip s⟩
    · refine ⟨r, rfl, hres, ?_⟩
      rw [hres]
      have hbt : (buildResult q r).hcc_relevant =
          (match r.tags with | some t => pyStrip t != "" | none => false) := rfl
      rw [hbt]
      rcases ht : r.tags with _ | t
      · simp
      · simp [bne_iff_ne]

/-- Witness for C5: a row with a padded code cell and a non-empty tag. -/
theorem lookup_result_invariants_witness :
    ((LookupResult.mk "Diabetes Mellitus" (some "E11") true).code = none ∨
      ∃ c, (LookupResult.mk "Diabetes Mellitus" (some "E11") true).code = some c ∧
        c ≠ "" ∧ c ≠ "nan" ∧ noEdgeSpace c = true) ∧
    ∃ r, selectRow (pyNormalize "diabetes mellitus")
        [RefRow.mk (some "Diabetes Mellitus") (some " E11 ") (some "True")] = some r ∧
      LookupResult.mk "Diabetes Mellitus" (some "E11") true = buildResult "diabetes mellitus" r ∧
      ((LookupResult.mk "Diabetes Mellitus" (some "E11") true).hcc_relevant = true ↔
        ∃ t, r.tags = some t ∧ pyStrip t ≠ "") :=
  lookup_result_invariants "diabetes mellitus"
    [RefRow.mk (some "Diabetes Mellitus") (some " E11 ") (some "True")]
    (LookupResult.mk "Diabetes Mellitus" (some "E11") true) (by decide)

/-- C4: enrichment preserves length and index correspondence; a condition
whose name the engine cannot match is passed through unchanged at its index,
and a matched one is replaced at its index by the condition built from the
match. -/
theorem enrich_preserves_length_and_order (lk : String → Option LookupResult)
    (cs : List Condition) :
    (enrichConditions lk cs).length = cs.length ∧
    (∀ (i : Nat) (c : Condition), cs[i]? = some c → lk c.name = none →
      (enrichConditions lk cs)[i]? = some c) ∧
    (∀ (i : Nat) (c : Condition) (m : LookupResult), cs[i]? = some c → lk c.name = some m →
      (enrichConditions lk cs)[i]? =
        some (Condition.mk m.condition m.code m.hcc_relevant)) := by
  induction cs with
  | nil =>
    refine ⟨rfl, ?_, ?_⟩
    · intro i c hc; simp at hc
    · intro i c m hc; simp at hc
  | cons a t ih =>
    obtain ⟨ih1, ih2, ih3⟩ := ih
    refine ⟨by simp [enrichConditions, ih1], ?_, ?_⟩
    · intro i c hc hnone
      cases i with
      | zero =>
        rw [List.getElem?_cons_zero] at hc
        injection hc with hc
        subst hc
        simp [enrichConditions, hnone]
      | succ n =>
        rw [List.getElem?_cons_succ] at hc
        simp only [enrichConditions, List.getElem?_cons_succ]
        exact ih2 n c hc hnone
    · intro i c m hc hm
      cases i with
      | zero =>
        rw [List.getElem?_cons_zero] at hc
        injection hc with hc
        subst hc
        simp [enrichConditions, hm]
      | succ n =>
        rw [List.getElem?_cons_succ] at hc
        simp only [enrichConditions, List.getElem?_cons_succ]
        exact ih3 n c m hc hm

/-- Witness for C4: a one-element list whose condition matches nothing. -/
theorem enrich_preserves_length_and_order_witness :
    (enrichConditions (fun _ => none) [Condition.mk "Pain" none false]).length = 1 ∧
    (enrichConditions (fun _ => none) [Condition.mk "Pain" none false])[0]? =
      some (Condition.mk "Pain" none false) := by
  obtain ⟨h1, h2, _⟩ :=
    enrich_preserves_length_and_order (fun _ => none) [Condition.mk "Pain" none false]
  exact ⟨h1, h2 0 (Condition.mk "Pain" none false) rfl rfl⟩

/-- C9: a condition already carrying a code whose name matches no table row
is returned unchanged by enrichment, so enriching again changes nothing. -/
theorem enrich_unmatched_idempotent (lk : String → Option LookupResult) (c : Condition)
    (_hcode : c.code.isSome = true) (hnone : lk c.name = none) :
    enrichConditions lk [c] = [c] ∧
    enrichConditions lk (enrichConditions lk [c]) = enrichConditions lk [c] := by
  have h1 : enrichConditions lk [c] = [c] := by simp [enrichConditions, hnone]
  exact ⟨h1, congrArg (enrichConditions lk) h1⟩

/-- Witness for C9: an already-coded condition against an engine that never
matches. -/
theorem enrich_unmatched_idempotent_witness :
    enrichConditions (fun _ => none) [Condition.mk "Gout" (some "M10") true] =
      [Condition.mk "Gout" (some "M10") true] ∧
    enrichConditions (fun _ => none)
        (enrichConditions (fun _ => none) [Condition.mk "Gout" (some "M10") true]) =
      enrichConditions (fun _ => none) [Condition.mk "Gout" (some "M10") true] :=
  enrich_unmatched_idempotent (fun _ => none) (Condition.mk "Gout" (some "M10") true) rfl rfl

/-! ### Claim theorems: section extraction, job runner, writers -/

/-- C7: the assessment-section extractor returns the input unchanged when no
start header is found or when the delimited slice strips to nothing, and
never turns a non-empty note into an empty string.  Stated for every
behaviour of the two header searches. -/
theorem extract_section_fallback (findStart : String → Option Nat)
    (findEnd : String → Nat → Option Nat) (text : String) :
    (findStart text = none → extractAssessmentSection findStart findEnd text = text) ∧
    (∀ s, findStart text = some s → sectionSlice findEnd text s = "" →
      extractAssessmentSection findStart findEnd text = text) ∧
    (text ≠ "" → extractAssessmentSection findStart findEnd text ≠ "") := by
  refine ⟨?_, ?_, ?_⟩
  · intro h
    by_cases ht : text = ""
    · simp [extractAssessmentSection, ht]
    · simp [extractAssessmentSection, ht, h]
  · intro s hs hsl
    by_cases ht : text = ""
    · simp [extractAssessmentSection, ht]
    · simp [extractAssessmentSection, ht, hs, hsl]
  · intro ht
    unfold extractAssessmentSection
    rw [if_neg ht]
    cases hs : findStart text with
    | none => exact ht
    | some s =>
      by_cases hsl : sectionSlice findEnd text s = ""
      · simp only [if_pos hsl]; exact ht
      · simp only [if_neg hsl]; exact hsl

/-- Witness for C7: a no-header note falls through unchanged, and a note
whose section slice is empty falls back to the whole note. -/
theorem extract_section_fallback_witness :
    extractAssessmentSection (fun _ => none) (fun _ _ => none) "note body" = "note body" ∧
    extractAssessmentSection (fun _ => some 0) (fun _ _ => some 0) "note body" = "note body" := by
  refine ⟨(extract_section_fallback (fun _ => none) (fun _ _ => none) "note body").1 rfl, ?_⟩
  exact (extract_section_fallback (fun _ => some 0) (fun _ _ => some 0) "note body").2.1
    0 rfl (by decide)

/-- C2: the runner records every successful file's output path and every
failed file's error message, no failure prevents another file's success from
being recorded, `completed` counts the successes, the final status is
`"completed"` exactly when no error occurred, and a two-file batch with one
failure ends `"failed"` with exactly one error and one output. -/
theorem run_job_partial_failure_isolation (files : List String)
    (results : List (Except String String)) (_hlen : results.length = files.length) :
    (runJob (mkJob files) results).outputs = okPaths results ∧
    (runJob (mkJob files) results).errors = errMsgs results ∧
    (runJob (mkJob files) results).completed = (okPaths results).length ∧
    (runJob (mkJob files) results).status =
      (if errMsgs results = [] then "completed" else "failed") ∧
    (results.length = 2 → (errMsgs results).length = 1 →
      (runJob (mkJob files) results).status = "failed" ∧
      (runJob (mkJob files) results).errors.length = 1 ∧
      (runJob (mkJob files) results).outputs.length = 1) := by
  obtain ⟨_, hcomp, herr, hout⟩ :=
    foldl_recordOutcome results { mkJob files with status := "running" }
  have ho : (runJob (mkJob files) results).outputs = okPaths results := by
    have hproj : (runJob (mkJob files) results).outputs =
        (results.foldl recordOutcome { mkJob files with status := "running" }).outputs := rfl
    rw [hproj, hout]
    rfl
  have he : (runJob (mkJob files) results).errors = errMsgs results := by
    have hproj : (runJob (mkJob files) results).errors =
        (results.foldl recordOutcome { mkJob files with status := "running" }).errors := rfl
    rw [hproj, herr]
    rfl
  have hc : (runJob (mkJob files) results).completed = (okPaths results).length := by
    have hproj : (runJob (mkJob files) results).completed =
        (results.foldl recordOutcome { mkJob files with status := "running" }).completed := rfl
    rw [hproj, hcomp]
    exact Nat.zero_add _
  have hs : (runJob (mkJob files) results).status =
      (if errMsgs results = [] then "completed" else "failed") := by
    have hproj : (runJob (mkJob files) results).status =
        (if (results.foldl recordOutcome
            { mkJob files with status := "running" }).errors.isEmpty
          then "completed" else "failed") := rfl
    rw [hproj, herr]
    have hnil : ({ mkJob files with status := "running" } : JobRecord).errors = [] := rfl
    rw [hnil, List.nil_append]
    cases hE : errMsgs results with
    | nil => rfl
    | cons m rest => rfl
  refine ⟨ho, he, hc, hs, fun h2 h1 => ⟨?_, ?_, ?_⟩⟩
  · rw [hs]
    have hne : errMsgs results ≠ [] := by
      intro hE; rw [hE] at h1; simp at h1
    rw [if_neg hne]
  · rw [he, h1]
  · rw [ho]
    have := okPaths_errMsgs_length results
    omega

/-- Witness for C2: two files, the first raising, the second producing its
artifact. -/
theorem run_job_partial_failure_isolation_witness :
    (runJob (mkJob ["note1.txt", "note2.txt"])
        [Except.error "boom", Except.ok "out/note2.txt.json"]).status = "failed" ∧
    (runJob (mkJob ["note1.txt", "note2.txt"])
        [Except.error "boom", Except.ok "out/note2.txt.json"]).errors.length = 1 ∧
    (runJob (mkJob ["note1.txt", "note2.txt"])
        [Except.error "boom", Except.ok "out/note2.txt.json"]).outputs.length = 1 := by
  have h := run_job_partial_failure_isolation ["note1.txt", "note2.txt"]
    [Except.error "boom", Except.ok "out/note2.txt.json"] rfl
  exact h.2.2.2.2 rfl rfl

/-- C8 counterexample: at a concrete directory and filename, the CLI writer
publishes the artifact atomically but the service writer does not — it writes
straight to the final path — so the claim that every writer is atomic fails
on the service writer. -/
theorem api_write_direct_counterexample :
    atomicAt (cliWriteTrace "out" "note1.txt") (outputPathOf "out" "note1.txt") = true ∧
    atomicAt (apiWriteTrace "out" "note1.txt") (outputPathOf "out" "note1.txt") = false := by
  refine ⟨by decide, by decide⟩

/-- C8 (amended): for every output directory and filename, the CLI writer
writes the artifact to `<final>.tmp` and renames it into place (atomic
publish), while the service writer performs a plain write at the final path
and never renames, hence is not atomic. -/
theorem write_atomicity_by_writer (dir fn : String) :
    atomicAt (cliWriteTrace dir fn) (outputPathOf dir fn) = true ∧
    atomicAt (apiWriteTrace dir fn) (outputPathOf dir fn) = false := by
  have hne : outputPathOf dir fn ++ ".tmp" ≠ outputPathOf dir fn := by
    intro h
    have hl := congrArg String.length h
    rw [String.length_append] at hl
    rw [show (".tmp" : String).length = 4 from rfl] at hl
    omega
  constructor
  · simp [atomicAt, cliWriteTrace, bne_iff_ne, hne]
  · simp [atomicAt, apiWriteTrace]
